import Mathlib

/-!
Verification development for the gomcli repository (an interactive CLI
dispatch library): a shallow embedding in Lean 4 of the line splitter,
the longest-prefix command resolver, the argument binder / value
converter and the completion engine, together with theorems about them.

Sources embedded: src/gomcli.go (splitInlineCommands, processInput,
processLine, getCommand, complete, rawCommandCompleter,
contextualComplete) and src/printer.go (Command, handleErr, execute,
convertStringToType, the error values).
-/

set_option autoImplicit false

deriving instance DecidableEq for Except

namespace Gomcli

/-- The distinct error values of the library, one constructor per Go
`errors.New` value declared in src/gomcli.go and src/printer.go, plus
constructors for the errors of the Go strconv package (returned verbatim
by convertStringToType on parse failure) and for arbitrary errors
produced by user-supplied handlers or functions. -/
inductive GoErr where
  | cliCannotParseLine
  | cliCommandNotFound
  | cmdMissingArgs
  | cmdInvalidArgs
  | cmdArgOverflow
  | cmdArgUnsupportedKind
  | strconvSyntax
  | strconvRange
  | custom (msg : String)
deriving DecidableEq, Repr

/-- The reflect.Kind values distinguished by convertStringToType
(printer.go:136-181): the signed and unsigned integer kinds, the float
kinds, string, bool, and a representative of every other kind (which
convertStringToType classifies as unsupported). -/
inductive Kind where
  | int | int8 | int16 | int32 | int64
  | uint | uint8 | uint16 | uint32 | uint64
  | float32 | float64
  | string | bool
  | other
deriving DecidableEq, Repr

/-- A typed Go value as produced by the value converter. Floats are kept
symbolic (represented by their source text): no claim inspects a float
value, and bit-level floating point is out of scope. -/
inductive GoValue where
  | intV (n : Int)
  | uintV (n : Nat)
  | floatV (text : String)
  | stringV (s : String)
  | boolV (b : Bool)
  | zeroOther
deriving DecidableEq, Repr

/-- The zero value of each kind: `reflect.Indirect(reflect.New(t))`
before any Set call (printer.go:137). -/
def Kind.zero : Kind → GoValue
  | .int | .int8 | .int16 | .int32 | .int64 => .intV 0
  | .uint | .uint8 | .uint16 | .uint32 | .uint64 => .uintV 0
  | .float32 | .float64 => .floatV "0"
  | .string => .stringV ""
  | .bool => .boolV false
  | .other => .zeroOther

/-- Bit width used by reflect's OverflowInt for each signed kind (Go int
is 64-bit on the platforms gomcli targets). Returns 0 for non-signed
kinds (unused there). -/
def Kind.intBits : Kind → Nat
  | .int => 64
  | .int8 => 8
  | .int16 => 16
  | .int32 => 32
  | .int64 => 64
  | _ => 0

/-- Bit width used by reflect's OverflowUint for each unsigned kind. -/
def Kind.uintBits : Kind → Nat
  | .uint => 64
  | .uint8 => 8
  | .uint16 => 16
  | .uint32 => 32
  | .uint64 => 64
  | _ => 0

/-- Whether the kind is one of the signed integer kinds of the first
case of convertStringToType's switch. -/
def Kind.isSigned : Kind → Bool
  | .int | .int8 | .int16 | .int32 | .int64 => true
  | _ => false

/-- Whether the kind is one of the unsigned integer kinds of the second
case of convertStringToType's switch. -/
def Kind.isUnsigned : Kind → Bool
  | .uint | .uint8 | .uint16 | .uint32 | .uint64 => true
  | _ => false

/-- reflect.Value.OverflowInt: the parsed int64 does not fit the
declared signed width. -/
def overflowsInt (t : Kind) (v : Int) : Bool :=
  v < -(2 ^ (t.intBits - 1)) ∨ v > 2 ^ (t.intBits - 1) - 1

/-- reflect.Value.OverflowUint: the parsed uint64 does not fit the
declared unsigned width. -/
def overflowsUint (t : Kind) (v : Nat) : Bool :=
  v > 2 ^ t.uintBits - 1

/-! ## strconv model

convertStringToType calls strconv.ParseInt(s, 0, 64),
strconv.ParseUint(s, 0, 64), strconv.ParseFloat and strconv.ParseBool.
strconv is the Go standard library, not part of this repository; the
definitions below model its documented behavior for base 0 and bit size
64: optional sign (ParseInt only), base prefixes 0b/0o/0x and legacy
leading-zero octal, underscore separators between digits, syntax and
range errors. -/

/-- Numeric value of a digit character, accepting 0-9 and a-z/A-Z as in
strconv's digit loop. -/
def digitVal (c : Char) : Option Nat :=
  if '0' ≤ c ∧ c ≤ '9' then some (c.toNat - '0'.toNat)
  else if 'a' ≤ c.toLower ∧ c.toLower ≤ 'z' then some (c.toLower.toNat - 'a'.toNat + 10)
  else none

/-- Scanning loop of strconv's underscoreOK: an underscore may appear
only between a base prefix or digit and a digit. `saw` is the class of
the previous character as in the Go code. -/
def underscoreOKLoop (hex : Bool) : Char → List Char → Bool
  | saw, [] => saw ≠ '_'
  | saw, c :: cs =>
    if ('0' ≤ c ∧ c ≤ '9') ∨ (hex ∧ 'a' ≤ c.toLower ∧ c.toLower ≤ 'f') then
      underscoreOKLoop hex '0' cs
    else if c = '_' then
      if saw ≠ '0' then false else underscoreOKLoop hex '_' cs
    else if saw = '_' then false
    else underscoreOKLoop hex '!' cs

/-- strconv's underscoreOK over the full numeric literal (sign and base
prefix included). -/
def underscoreOK (s : List Char) : Bool :=
  let s1 := match s with
    | c :: rest => if c = '-' ∨ c = '+' then rest else s
    | [] => s
  match s1 with
  | '0' :: b :: rest =>
    if b.toLower = 'b' ∨ b.toLower = 'o' ∨ b.toLower = 'x' then
      underscoreOKLoop (b.toLower = 'x') '0' rest
    else underscoreOKLoop false '^' s1
  | _ => underscoreOKLoop false '^' s1

/-- Largest uint64 value, the maxVal of ParseUint at bit size 64. -/
def maxUint64 : Nat := 2 ^ 64 - 1

/-- Digit-accumulation loop of ParseUint: consume digits of the given
base, skipping underscores when the caller passed base 0, recording
whether any underscore was seen, with the uint64 range check. -/
def parseDigitsLoop (base : Nat) : Nat → Bool → List Char → Except GoErr (Nat × Bool)
  | n, sawU, [] => .ok (n, sawU)
  | n, sawU, c :: cs =>
    if c = '_' then parseDigitsLoop base n true cs
    else match digitVal c with
      | none => .error .strconvSyntax
      | some d =>
        if base ≤ d then .error .strconvSyntax
        else
          let n1 := n * base + d
          if maxUint64 < n1 then .error .strconvRange
          else parseDigitsLoop base n1 sawU cs

/-- strconv.ParseUint(s, 0, 64): base detection from the prefix
(0b / 0o / 0x / legacy leading zero for octal, else decimal), the digit
loop, and the underscore well-formedness check. -/
def parseUint0 (s : String) : Except GoErr Nat :=
  match s.data with
  | [] => .error .strconvSyntax
  | c0 :: rest =>
    let (base, digits) :=
      if c0 = '0' then
        match rest with
        | b :: ds =>
          if b.toLower = 'b' ∧ ds ≠ [] then (2, ds)
          else if b.toLower = 'o' ∧ ds ≠ [] then (8, ds)
          else if b.toLower = 'x' ∧ ds ≠ [] then (16, ds)
          else (8, rest)
        | [] => (8, rest)
      else (10, c0 :: rest)
    match parseDigitsLoop base 0 false digits with
    | .error e => .error e
    | .ok (n, sawU) =>
      if sawU ∧ ¬ underscoreOK s.data then .error .strconvSyntax else .ok n

/-- strconv.ParseInt(s, 0, 64): strip an optional sign, parse the
magnitude as ParseUint does, then apply the int64 cutoff. -/
def parseInt0 (s : String) : Except GoErr Int :=
  match s.data with
  | [] => .error .strconvSyntax
  | c :: rest =>
    let neg := c = '-'
    let mag : List Char := if c = '-' ∨ c = '+' then rest else c :: rest
    match parseUint0 (String.mk mag) with
    | .error e => .error e
    | .ok un =>
      if ¬ neg ∧ 2 ^ 63 ≤ un then .error .strconvRange
      else if neg ∧ 2 ^ 63 < un then .error .strconvRange
      else .ok (if neg then -(un : Int) else (un : Int))

/-- strconv.ParseBool: the canonical truthy and falsy forms. -/
def parseBool (s : String) : Except GoErr Bool :=
  if s = "1" ∨ s = "t" ∨ s = "T" ∨ s = "TRUE" ∨ s = "true" ∨ s = "True" then .ok true
  else if s = "0" ∨ s = "f" ∨ s = "F" ∨ s = "FALSE" ∨ s = "false" ∨ s = "False" then .ok false
  else .error .strconvSyntax

/-- Is the character an ASCII decimal digit. -/
def isDec (c : Char) : Bool := '0' ≤ c ∧ c ≤ '9'

/-- Syntactic validity for strconv.ParseFloat, simplified to the decimal
forms (optional sign, digits with at most one dot and at least one
digit, optional exponent); hex floats, inf/nan and the float32/float64
range distinction are not modeled, and no claim depends on them. -/
def parseFloatOk (s : String) : Bool :=
  let cs := match s.data with
    | c :: rest => if c = '+' ∨ c = '-' then rest else s.data
    | [] => []
  let mant := cs.takeWhile (fun c => isDec c ∨ c = '.')
  let rest := cs.dropWhile (fun c => isDec c ∨ c = '.')
  decide (0 < (mant.filter isDec).length) &&
    decide ((mant.filter (· = '.')).length ≤ 1) &&
    (match rest with
     | [] => true
     | e :: er =>
       (e == 'e' || e == 'E') &&
         (let er2 := match er with
            | c :: tl => if c = '+' ∨ c = '-' then tl else er
            | [] => er
          !er2.isEmpty && er2.all isDec))

/-- Translated from printer.go:136-181 (convertStringToType): convert a
single string token to a typed value for the declared kind. Returns the
pair (result, err) exactly as the Go function does: on any error the
result is the zero value of the kind (the Set call is never reached on
an error path). Note both the signed and the unsigned overflow branches
return the single error value ErrCmdArgOverflow (printer.go:145 and
printer.go:154). -/
def convertStringToType (t : Kind) (strVal : String) : GoValue × Option GoErr :=
  match t with
  | .int | .int8 | .int16 | .int32 | .int64 =>
    match parseInt0 strVal with
    | .error e => (t.zero, some e)
    | .ok val =>
      if overflowsInt t val then (t.zero, some .cmdArgOverflow)
      else (.intV val, none)
  | .uint | .uint8 | .uint16 | .uint32 | .uint64 =>
    match parseUint0 strVal with
    | .error e => (t.zero, some e)
    | .ok val =>
      if overflowsUint t val then (t.zero, some .cmdArgOverflow)
      else (.uintV val, none)
  | .float32 | .float64 =>
    if parseFloatOk strVal then (.floatV strVal, none)
    else (t.zero, some .strconvSyntax)
  | .string => (.stringV strVal, none)
  | .bool =>
    match parseBool strVal with
    | .error e => (t.zero, some e)
    | .ok val => (.boolV val, none)
  | .other => (t.zero, some .cmdArgUnsupportedKind)

/-! ## Commands and execution (src/printer.go) -/

/-- The reflect view of a Command's Function used by execute: the
declared parameter kinds (argTypes, printer.go:113-116) and the call
itself. The call is modeled as a pure map from the bound argument
values to the error the Go function may return; v.Call's results are
reflect.Values that execute discards, so only claims about discarding
mention it. -/
structure GoFunc where
  params : List Kind
  run : List GoValue → Option GoErr

/-- The Function field of a Command: nil, a non-nil value that is not a
function (v.Kind() != reflect.Func), or a function. -/
inductive FunctionField where
  | nil
  | nonFunc
  | fn (f : GoFunc)

/-- A Command (printer.go:67-72). The Go ErrHandler receives the
Command pointer, the args and the error; because a Lean structure field
cannot refer to the structure being defined, the handler here is a
function of the args and the error only (the claims never depend on a
handler inspecting its Command argument). Handlers are modeled as pure,
in line with the concurrency model of the spec. -/
structure Command where
  Name : String
  Function : FunctionField
  ErrHandler : Option (List String → GoErr → Option GoErr)
  Completer : Option (String → List String)

/-- Command.complete (printer.go:74-79): delegate to the Completer if
present, else no candidates. -/
def Command.complete (c : Command) (line : String) : List String :=
  match c.Completer with
  | some f => f line
  | none => []

/-- Command.handleErr (printer.go:81-90): without a handler the error is
returned as-is; with one, the handler's non-nil result is returned,
and a nil result means the error was handled. -/
def Command.handleErr (c : Command) (err : GoErr) (args : List String) : Option GoErr :=
  match c.ErrHandler with
  | none => some err
  | some h =>
    match h args err with
    | some retErr => some retErr
    | none => none

/-- How a call to execute ends: a normal return carrying the Go error
value (none = nil), or a runtime panic with the Go panic message. -/
inductive ExecOutcome where
  | ret (err : Option GoErr)
  | panicked (msg : String)
deriving DecidableEq, Repr

/-- Result of Command.execute, with two pieces of instrumentation that
make the observable behavior of the Go code statable: `called` is the
argument list passed to v.Call if the call was reached (none if not),
and `argsOut` is the final contents of the args slice (the Go code
contains no write to it; the field lets that be a theorem rather than a
convention). -/
structure ExecResult where
  outcome : ExecOutcome
  called : Option (List GoValue)
  argsOut : List String

/-- The conversion loop of execute (printer.go:118-128), over the pairs
argTypes[i], args[i] for i < ni: convert each token; a conversion error
is offered to handleErr and, if unhandled, returned from execute
(modeled as .error); the value appended is convertStringToType's result
field even when the error was handled (the zero value in that case). -/
def Command.bindLoop (c : Command) (args : List String) :
    List (Kind × String) → Except GoErr (List GoValue)
  | [] => .ok []
  | (t, arg) :: rest =>
    let conv := convertStringToType t arg
    match conv.2 with
    | some e =>
      match c.handleErr e args with
      | some retErr => .error retErr
      | none => (c.bindLoop args rest).map (fun vs => conv.1 :: vs)
    | none => (c.bindLoop args rest).map (fun vs => conv.1 :: vs)

/-- Translated from printer.go:92-133 (Command.execute). A nil or
non-function Function panics. If fewer args than parameters were given,
ErrCmdMissingArgs is offered to handleErr; an unhandled error is
returned, but when the handler recovers, control reaches `args[:ni]`
with ni greater than len(args), which is a Go slice-bounds panic (the
model takes cap = len, which is exact for the `cmd.execute()` call of
processLine, whose variadic slice is nil). Otherwise the first ni args
are converted and the function is called; its results are discarded and
execute returns nil. -/
def Command.execute (c : Command) (args : List String) : ExecResult :=
  match c.Function with
  | .nil => ⟨.panicked "Execute requires a function!", none, args⟩
  | .nonFunc => ⟨.panicked "Execute requires a function!", none, args⟩
  | .fn f =>
    let ni := f.params.length
    if args.length < ni then
      match c.handleErr .cmdMissingArgs args with
      | some err => ⟨.ret (some err), none, args⟩
      | none => ⟨.panicked "slice bounds out of range", none, args⟩
    else
      match c.bindLoop args (f.params.zip (args.take ni)) with
      | .error e => ⟨.ret (some e), none, args⟩
      | .ok values =>
        let _ := f.run values
        ⟨.ret none, some values, args⟩

/-! ## Tokenizer (the shlex dependency) and string helpers -/

/-- Whitespace as the tokenizer sees it. -/
def isSpaceChar (c : Char) : Bool := c = ' ' ∨ c = '\t' ∨ c = '\n' ∨ c = '\r'

/-- Quote characters recognized by the tokenizer. -/
def isQuoteChar (c : Char) : Bool := c = '\'' ∨ c = '"'

/-- Modelled from the spec: the shell-style tokenizer the source calls
(shlex.Split of github.com/anmitsu/go-shlex, a dependency whose code is
not in this repository). Per the spec, the line is split into
whitespace-separated tokens honoring quoting and backslash escaping,
and a token may contain embedded whitespace if quoted. posix = true
(used by processLine) interprets escapes and strips quote marks;
posix = false (used by splitInlineCommands and complete) keeps quote
and backslash characters verbatim in the token while still grouping by
quotes. An unterminated quote, or a trailing escape in posix mode, is a
tokenization failure (none). Arguments: the open-quote character if
inside a quoted section, the current token being accumulated (none when
between tokens), the tokens finished so far, the remaining input. -/
def shlexLoop (posix : Bool) :
    Option Char → Option (List Char) → List String → List Char → Option (List String)
  | some _, _, _, [] => none
  | none, cur, acc, [] =>
    match cur with
    | none => some acc
    | some t => some (acc ++ [String.mk t])
  | some q, cur, acc, ch :: rest =>
    if ch = q then
      let cur' := if posix then cur.getD [] else cur.getD [] ++ [ch]
      shlexLoop posix none (some cur') acc rest
    else if posix ∧ ch = '\\' then
      match rest with
      | [] => none
      | e :: rest' => shlexLoop posix (some q) (some (cur.getD [] ++ [e])) acc rest'
    else shlexLoop posix (some q) (some (cur.getD [] ++ [ch])) acc rest
  | none, cur, acc, ch :: rest =>
    if isSpaceChar ch then
      match cur with
      | none => shlexLoop posix none none acc rest
      | some t => shlexLoop posix none none (acc ++ [String.mk t]) rest
    else if isQuoteChar ch then
      let base := if posix then cur.getD [] else cur.getD [] ++ [ch]
      shlexLoop posix (some ch) (some base) acc rest
    else if posix ∧ ch = '\\' then
      match rest with
      | [] => none
      | e :: rest' => shlexLoop posix none (some (cur.getD [] ++ [e])) acc rest'
    else shlexLoop posix none (some (cur.getD [] ++ [ch])) acc rest

/-- shlex.Split(s, posix): none models a non-nil error (in which case
the Go callers receive a nil token slice). -/
def shlexSplit (posix : Bool) (s : String) : Option (List String) :=
  shlexLoop posix none none [] s.data

/-- strings.Join(ts, " ") as used to build candidate command names. -/
def joinSpace : List String → String
  | [] => ""
  | [s] => s
  | s :: rest => s ++ " " ++ joinSpace rest

/-- Go byte slicing s[:n], modeled at the character level (identical for
the ASCII inputs the claims use). -/
def strTake (s : String) (n : Nat) : String := String.mk (s.data.take n)

/-- Go byte slicing s[n:], modeled at the character level. -/
def strDrop (s : String) (n : Nat) : String := String.mk (s.data.drop n)

/-- The last two characters of a token, element[len(element)-2:]. -/
def lastTwo (s : String) : List Char := (s.data.reverse.take 2).reverse

/-- The last character of a token, element[len(element)-1:]. -/
def lastOne (s : String) : List Char := (s.data.reverse.take 1).reverse

/-- All characters of a token but the last, element[:len(element)-1]. -/
def dropLastStr (s : String) : String := String.mk s.data.dropLast

/-! ## Line splitter (src/gomcli.go splitInlineCommands) -/

/-- The token walk of splitInlineCommands (gomcli.go:245-264), with the
accumulating statement `command` and the finished statements `lines`.
A token ending in backslash-semicolon is kept verbatim (the documented
escape quirk); a token ending in double semicolon is the fatal syntax
error; a token ending in a single semicolon closes the statement,
appending the non-empty text before the separator; any other token is
appended. At the end a non-empty accumulated statement is emitted. -/
def splitWalk (command lines : List String) : List String → Except GoErr (List String)
  | [] =>
    if 0 < command.length then .ok (lines ++ [joinSpace command]) else .ok lines
  | element :: rest =>
    if 1 < element.length ∧ lastTwo element = ['\\', ';'] then
      splitWalk (command ++ [element]) lines rest
    else if 1 < element.length ∧ lastTwo element = [';', ';'] then
      .error .cliCannotParseLine
    else if lastOne element = [';'] then
      let command' :=
        if dropLastStr element ≠ "" then command ++ [dropLastStr element] else command
      splitWalk [] (lines ++ [joinSpace command']) rest
    else splitWalk (command ++ [element]) lines rest

/-- Translated from gomcli.go:236-267 (splitInlineCommands): tokenize
the raw input in non-posix mode (a tokenization error becomes
ErrCliCannotParseLine) and walk the tokens. -/
def splitInlineCommands (userInput : String) : Except GoErr (List String) :=
  match shlexSplit false userInput with
  | none => .error .cliCannotParseLine
  | some parsed => splitWalk [] [] parsed

/-! ## The CLI state and the dispatch pipeline (src/gomcli.go) -/

/-- How a Go call ends: a normal return, or an uncaught panic unwinding
through the caller. -/
inductive Outcome (α : Type) where
  | ok (a : α)
  | panicked (msg : String)
deriving DecidableEq, Repr

/-- The parts of the GomCLI struct (gomcli.go:33-39) the dispatch core
reads: the name-to-Command registry (the Go map, modeled as an
association list keyed by name; Go map iteration order is unspecified,
the model fixes insertion order) and the optional not-found handler
(modeled pure, like ErrHandler). The liner state, prompt and history
file belong to the excluded terminal front end. -/
structure GomCLI where
  commands : List (String × Command)
  notFoundHandler : Option (String → Option GoErr)

/-- Lookup of the Go map commands[name]. -/
def lookupName (m : List (String × Command)) (name : String) : Option Command :=
  match m.find? (fun p => p.1 == name) with
  | some p => some p.2
  | none => none

/-- Translated from gomcli.go:173-178 (getCommand). Pointer-receiver
methods are modeled as returning the receiver alongside the result, so
that not mutating it is a theorem; the body performs only a map read
(the returned value is a copy of the map entry). -/
def GomCLI.getCommand (c : GomCLI) (name : String) : Except GoErr Command × GomCLI :=
  match lookupName c.commands name with
  | some cmd => (.ok cmd, c)
  | none => (.error .cliCommandNotFound, c)

/-- The longest-prefix loop of processLine (gomcli.go:217-228), factored
out: for i = n down to 1, join the first i tokens with spaces and look
the chunk up; the first hit is returned with the residual tokens. -/
def resolveLoop (c : GomCLI) (tokens : List String) : Nat → Option (String × Command × List String)
  | 0 => none
  | i + 1 =>
    let chunk := joinSpace (tokens.take (i + 1))
    match (c.getCommand chunk).1 with
    | .ok cmd => some (chunk, cmd, tokens.drop (i + 1))
    | .error _ => resolveLoop c tokens i

/-- The resolver: run the loop from the full token count. -/
def GomCLI.resolve (c : GomCLI) (tokens : List String) :
    Option (String × Command × List String) :=
  resolveLoop c tokens tokens.length

/-- Translated from gomcli.go:207-234 (processLine): tokenize the
invocation in posix mode (an error is reported as ErrCliCannotParseLine),
return nil for an empty token list, otherwise resolve and execute the
command with the residual tokens (the source calls execute() without
arguments when there was a single token, which is the same empty
residual), and fall back to the not-found handler with tokens[0], or to
nil without one. An execute panic unwinds through processLine. -/
def GomCLI.processLine (c : GomCLI) (line : String) : Outcome (Option GoErr) × GomCLI :=
  match shlexSplit true line with
  | none => (.ok (some .cliCannotParseLine), c)
  | some tokens =>
    match tokens with
    | [] => (.ok none, c)
    | t0 :: _ =>
      match c.resolve tokens with
      | some (_, cmd, residual) =>
        match (if 1 < tokens.length then cmd.execute residual else cmd.execute []).outcome with
        | .ret e => (.ok e, c)
        | .panicked m => (.panicked m, c)
      | none =>
        match c.notFoundHandler with
        | some h => (.ok (h t0), c)
        | none => (.ok none, c)

/-- The loop of processInput (gomcli.go:197-202): process each line in
order, stopping at the first error. The middle component is
instrumentation: the list of lines actually passed to processLine, in
order, which makes the execution order statable. -/
def GomCLI.processLinesFrom (c : GomCLI) :
    List String → Outcome (Option GoErr) × List String × GomCLI
  | [] => (.ok none, [], c)
  | l :: ls =>
    match c.processLine l with
    | (.panicked m, c1) => (.panicked m, [l], c1)
    | (.ok (some err), c1) => (.ok (some err), [l], c1)
    | (.ok none, c1) =>
      match c1.processLinesFrom ls with
      | (r, log, c2) => (r, l :: log, c2)

/-- Translated from gomcli.go:191-205 (processInput): split the raw
input into invocation strings and process them in order. -/
def GomCLI.processInput (c : GomCLI) (input : String) :
    Outcome (Option GoErr) × List String × GomCLI :=
  match splitInlineCommands input with
  | .error e => (.ok (some e), [], c)
  | .ok lines => c.processLinesFrom lines

/-! ## Completion engine (src/gomcli.go complete) -/

/-- Translated from gomcli.go:156-162 (contextualComplete): the
registered command names. -/
def GomCLI.contextualComplete (c : GomCLI) : List String :=
  c.commands.map (fun p => p.1)

/-- Translated from gomcli.go:164-171 (rawCommandCompleter): the
registered names having the line as a literal prefix
(strings.HasPrefix(cmd, line)). -/
def GomCLI.rawCommandCompleter (c : GomCLI) (line : String) : List String :=
  c.contextualComplete.filter (fun cmd => line.data.isPrefixOf cmd.data)

/-- The longest-prefix loop of complete (gomcli.go:143-152): on a full
match, delegate to the command's completer with the empty search string
and replace the whole line; on a proper-prefix match at length i, the
search string is tokens[i] and the head is the command name plus a
space; with no match, fall back to rawCommandCompleter on the full
line, with the zero-valued head. -/
def completeLoop (c : GomCLI) (line : String) (tokens : List String) (tail : String) :
    Nat → String × List String × String
  | 0 => ("", c.rawCommandCompleter line, tail)
  | i + 1 =>
    let chunk := joinSpace (tokens.take (i + 1))
    match (c.getCommand chunk).1 with
    | .ok cmd =>
      if i + 1 = tokens.length then (line, cmd.complete "", tail)
      else (cmd.Name ++ " ", cmd.complete (tokens.getD (i + 1) ""), tail)
    | .error _ => completeLoop c line tokens tail i

/-- Translated from gomcli.go:140-154 (complete): tokenize the portion
of the line before the cursor in non-posix mode, discarding a
tokenization error (the token list is then nil), keep the portion after
the cursor as the tail, and run the loop. -/
def GomCLI.complete (c : GomCLI) (line : String) (pos : Nat) :
    String × List String × String :=
  let tokens := (shlexSplit false (strTake line pos)).getD []
  let tail := strDrop line pos
  completeLoop c line tokens tail tokens.length

/-! ## Concrete commands and registries used by witnesses -/

/-- A no-argument command, as the README registers for "mode". -/
def cmdMode : Command :=
  { Name := "mode", Function := .fn ⟨[], fun _ => none⟩,
    ErrHandler := none, Completer := none }

/-- A no-argument command registered under the two-word name
"mode advanced", as in the README. -/
def cmdModeAdv : Command :=
  { Name := "mode advanced", Function := .fn ⟨[], fun _ => none⟩,
    ErrHandler := none, Completer := none }

/-- A registry holding both "mode" and its extension "mode advanced". -/
def demoCli : GomCLI :=
  { commands := [("mode", cmdMode), ("mode advanced", cmdModeAdv)],
    notFoundHandler := none }

/-- A command whose function takes one int parameter and whose
ErrHandler swallows every error (returns nil), the recommended graceful
handling per the ErrHandler documentation. -/
def cmdInc : Command :=
  { Name := "inc", Function := .fn ⟨[Kind.int], fun _ => none⟩,
    ErrHandler := some (fun _ _ => none), Completer := none }

/-- A registry holding only cmdInc. -/
def incCli : GomCLI :=
  { commands := [("inc", cmdInc)], notFoundHandler := none }

/-- A command whose function takes one int parameter and returns a
non-nil error when called. -/
def cmdBoom : Command :=
  { Name := "boom", Function := .fn ⟨[Kind.int], fun _ => some (.custom "boom")⟩,
    ErrHandler := none, Completer := none }

/-- A CLI with no commands whose not-found handler reports the unknown
token as an error, so that processing a nonempty line fails. -/
def errCli : GomCLI :=
  { commands := [], notFoundHandler := some (fun s => some (.custom s)) }

/-- A registry whose single command name starts with a double-quote
character (command names are arbitrary strings). -/
def quirkCli : GomCLI :=
  { commands := [("\"ab", { Name := "\"ab", Function := .fn ⟨[], fun _ => none⟩,
                            ErrHandler := none, Completer := none })],
    notFoundHandler := none }

/-! ## Helper lemmas -/

theorem string_append_assoc (a b c : String) : a ++ b ++ c = a ++ (b ++ c) := by
  apply String.ext
  simp [String.data_append, List.append_assoc]

theorem joinSpace_pair (a b : String) : joinSpace [a, b] = a ++ " " ++ b := rfl

theorem joinSpace_triple (a b x : String) :
    joinSpace [a, b, x] = a ++ " " ++ b ++ " " ++ x := by
  show a ++ " " ++ (b ++ " " ++ x) = a ++ " " ++ b ++ " " ++ x
  rw [string_append_assoc (a ++ " " ++ b) " " x, string_append_assoc (a ++ " ") b (" " ++ x),
    string_append_assoc b " " x]

/-- Descending from m to i, the loop result is unchanged while every
chunk length strictly above i looks up to nothing. -/
theorem resolveLoop_skip (c : GomCLI) (tokens : List String) (i : Nat) :
    ∀ m, i ≤ m →
      (∀ j, i < j → j ≤ m → lookupName c.commands (joinSpace (tokens.take j)) = none) →
      resolveLoop c tokens m = resolveLoop c tokens i := by
  intro m
  induction m with
  | zero =>
    intro him _
    rw [Nat.le_zero.mp him]
  | succ k ih =>
    intro him hnone
    rcases Nat.lt_or_ge i (k + 1) with hlt | hge
    · have hn := hnone (k + 1) hlt (Nat.le_refl _)
      have hstep : resolveLoop c tokens (k + 1) = resolveLoop c tokens k := by
        simp only [resolveLoop, GomCLI.getCommand, hn]
      rw [hstep]
      exact ih (Nat.lt_succ_iff.mp hlt)
        (fun j hj hj2 => hnone j hj (Nat.le_succ_of_le hj2))
    · rw [Nat.le_antisymm him hge]

/-! ## Claim theorems -/

/-- Claim C1: for every registry and tokenized invocation, the resolver
tries the space-joined token-sequence prefixes from the full length
down to length 1 and the first (longest) registered match wins: if the
length-i chunk is registered and no longer chunk is, the result is that
chunk with the residual tokens behind it; if no length matches, the
result is NotFound (none); and in particular when both a name A and its
strict extension "A B" are registered while "A B C" is not, the tokens
of "A B C" resolve to "A B" with residual ["C"], never to A. -/
theorem c1_longest_prefix_match :
    (∀ (c : GomCLI) (tokens : List String) (i : Nat) (cmd : Command),
       0 < i → i ≤ tokens.length →
       lookupName c.commands (joinSpace (tokens.take i)) = some cmd →
       (∀ j, i < j → j ≤ tokens.length →
          lookupName c.commands (joinSpace (tokens.take j)) = none) →
       c.resolve tokens = some (joinSpace (tokens.take i), cmd, tokens.drop i))
  ∧ (∀ (c : GomCLI) (tokens : List String),
       (∀ i, 0 < i → i ≤ tokens.length →
          lookupName c.commands (joinSpace (tokens.take i)) = none) →
       c.resolve tokens = none)
  ∧ (∀ (c : GomCLI) (a b x : String) (cmdA cmdAB : Command),
       lookupName c.commands a = some cmdA →
       lookupName c.commands (a ++ " " ++ b) = some cmdAB →
       lookupName c.commands (a ++ " " ++ b ++ " " ++ x) = none →
       c.resolve [a, b, x] = some (a ++ " " ++ b, cmdAB, [x])) := by
  have part1 : ∀ (c : GomCLI) (tokens : List String) (i : Nat) (cmd : Command),
      0 < i → i ≤ tokens.length →
      lookupName c.commands (joinSpace (tokens.take i)) = some cmd →
      (∀ j, i < j → j ≤ tokens.length →
         lookupName c.commands (joinSpace (tokens.take j)) = none) →
      c.resolve tokens = some (joinSpace (tokens.take i), cmd, tokens.drop i) := by
    intro c tokens i cmd hpos hle hfound hnone
    rw [GomCLI.resolve, resolveLoop_skip c tokens i tokens.length hle hnone]
    obtain ⟨i', rfl⟩ : ∃ i', i = i' + 1 :=
      ⟨i - 1, (Nat.succ_pred_eq_of_pos hpos).symm⟩
    simp only [resolveLoop, GomCLI.getCommand, hfound]
  refine ⟨part1, ?_, ?_⟩
  · intro c tokens hnone
    rw [GomCLI.resolve,
      resolveLoop_skip c tokens 0 tokens.length (Nat.zero_le _)
        (fun j hj hj2 => hnone j hj hj2)]
    rfl
  · intro c a b x cmdA cmdAB hA hAB hnABx
    have h := part1 c [a, b, x] 2 cmdAB (by omega) (by simp)
      (by rw [List.take, List.take, List.take, joinSpace_pair]; exact hAB)
      (by
        intro j hj2 hj3
        have : j = 3 := by simp at hj3; omega
        subst this
        rw [show List.take 3 [a, b, x] = [a, b, x] from rfl, joinSpace_triple]
        exact hnABx)
    rw [show List.take 2 [a, b, x] = [a, b] from rfl, joinSpace_pair,
      show List.drop 2 [a, b, x] = [x] from rfl] at h
    exact h

/-- Witness for C1: in the README registry holding "mode" and
"mode advanced", the tokens of "mode advanced 3" resolve to
"mode advanced" with residual ["3"]. -/
theorem c1_witness :
    demoCli.resolve ["mode", "advanced", "3"] = some ("mode advanced", cmdModeAdv, ["3"]) := by
  have h := c1_longest_prefix_match.2.2 demoCli "mode" "advanced" "3" cmdMode cmdModeAdv
    rfl rfl rfl
  exact h

/-- Claim C2 (code bug): when an invocation supplies fewer tokens than
the declared parameter count and the command's ErrHandler recovers
(returns nil), execution does not continue in a defined way: control
reaches args[:ni] with ni greater than len(args), a Go slice-bounds
panic. Evaluated at the failing input, a one-int-parameter command with
a recovering handler executed with zero arguments: execute panics, the
operation is never called, and the panic unwinds through processLine
when the line "inc" is dispatched. -/
theorem c2_missing_args_recovery_panics :
    (cmdInc.execute []).outcome = ExecOutcome.panicked "slice bounds out of range"
  ∧ (cmdInc.execute []).called = none
  ∧ (incCli.processLine "inc").1 = Outcome.panicked "slice bounds out of range" := by
  refine ⟨rfl, rfl, ?_⟩
  decide

/-- Claim C3 counterexample: on the input "foo;;bar" the line splitter
does not fail; the doubled separator sits inside a single
whitespace-delimited token that does not end in ";;", so the splitter
returns the one invocation "foo;;bar". -/
theorem c3_counterexample :
    splitInlineCommands "foo;;bar" = Except.ok ["foo;;bar"]
  ∧ splitInlineCommands "foo;;bar" ≠ Except.error GoErr.cliCannotParseLine := by
  decide

/-- Claim C3 as amended: the splitter fails with ErrCliCannotParseLine
exactly when some whitespace-delimited token ends in two consecutive
semicolons: any token list containing such a token makes the walk fail,
so "foo;; bar" is rejected with no invocations, while "foo;;bar" is a
single token not ending in ";;" and yields the single invocation
"foo;;bar". -/
theorem c3_doubled_separator_token_fails :
    (∀ (command lines parsed : List String),
       (∃ el ∈ parsed, 1 < el.length ∧ lastTwo el = [';', ';']) →
       splitWalk command lines parsed = Except.error GoErr.cliCannotParseLine)
  ∧ splitInlineCommands "foo;; bar" = Except.error GoErr.cliCannotParseLine
  ∧ splitInlineCommands "foo;;bar" = Except.ok ["foo;;bar"] := by
  refine ⟨?_, by decide, by decide⟩
  intro command lines parsed
  induction parsed generalizing command lines with
  | nil =>
    rintro ⟨el, h, -⟩
    exact absurd h (List.not_mem_nil el)
  | cons el rest ih =>
    rintro ⟨x, hx, hlen, hlt⟩
    rcases List.mem_cons.mp hx with heq | hx'
    · subst heq
      rw [splitWalk, if_neg, if_pos ⟨hlen, hlt⟩]
      rintro ⟨-, h2⟩
      rw [hlt] at h2
      exact absurd h2 (by decide)
    · rw [splitWalk]
      split_ifs <;> first
        | rfl
        | exact ih _ _ ⟨x, hx', hlen, hlt⟩

/-- Witness for C3 as amended: the walk fails on the token list
containing "foo;;". -/
theorem c3_witness :
    splitWalk [] [] ["foo;;"] = Except.error GoErr.cliCannotParseLine :=
  c3_doubled_separator_token_fails.1 [] [] ["foo;;"]
    ⟨"foo;;", by decide, by decide, by decide⟩

/-- Claim C4 counterexample: split(";foo") does not return ["foo"]; the
leading separator is attached to the following text inside one
whitespace-delimited token, which does not end in a separator, so the
single invocation is ";foo" with the separator kept. -/
theorem c4_counterexample :
    splitInlineCommands ";foo" ≠ Except.ok ["foo"]
  ∧ splitInlineCommands ";foo" = Except.ok [";foo"] := by
  decide

/-- Claim C4 as amended: splitting ";foo" yields exactly one invocation
string, ";foo": a separator directly followed by text is ordinary text
of the token, since the walk only recognizes a separator at the end of
a token. -/
theorem c4_leading_separator_is_literal :
    splitInlineCommands ";foo" = Except.ok [";foo"] := by
  decide

/-- Claim C6 counterexample: a token overflowing an unsigned width and a
token overflowing a signed width are classified with the same error
value ErrCmdArgOverflow (printer.go declares a single overflow error),
not with distinct ones. -/
theorem c6_counterexample :
    (convertStringToType Kind.uint8 "256").2 = some GoErr.cmdArgOverflow
  ∧ (convertStringToType Kind.int8 "128").2 = some GoErr.cmdArgOverflow
  ∧ (convertStringToType Kind.uint8 "256").2 = (convertStringToType Kind.int8 "128").2 := by
  decide

/-- Claim C6 as amended: for every unsigned-integer kind, a token whose
parsed magnitude does not fit the declared bit width is classified with
ErrCmdArgOverflow, the same single error value produced for
width-overflow on the signed-integer kinds (the code does not define a
distinct unsigned-overflow error). -/
theorem c6_overflow_single_error :
    ∀ (t : Kind) (s : String),
      (t.isUnsigned = true →
        ∀ n, parseUint0 s = Except.ok n → overflowsUint t n = true →
          convertStringToType t s = (t.zero, some GoErr.cmdArgOverflow))
    ∧ (t.isSigned = true →
        ∀ v, parseInt0 s = Except.ok v → overflowsInt t v = true →
          convertStringToType t s = (t.zero, some GoErr.cmdArgOverflow)) := by
  intro t s
  constructor
  · intro ht n hp ho
    cases t <;> simp_all [convertStringToType, Kind.isUnsigned]
  · intro ht v hp ho
    cases t <;> simp_all [convertStringToType, Kind.isSigned]

/-- Witness for C6 as amended: uint8 with "256" and int8 with "128"
both classify as ErrCmdArgOverflow. -/
theorem c6_witness :
    convertStringToType Kind.uint8 "256" = (Kind.uint8.zero, some GoErr.cmdArgOverflow)
  ∧ convertStringToType Kind.int8 "128" = (Kind.int8.zero, some GoErr.cmdArgOverflow) :=
  ⟨(c6_overflow_single_error Kind.uint8 "256").1 rfl 256 (by decide) (by decide),
   (c6_overflow_single_error Kind.int8 "128").2 rfl 128 (by decide) (by decide)⟩

/-- Claim C7: binding "128" to a signed 8-bit parameter reports the
overflow classification (with the zero value as the partial result),
and binding "127" succeeds with the value 127. -/
theorem c7_int8_boundary :
    convertStringToType Kind.int8 "128" = (GoValue.intV 0, some GoErr.cmdArgOverflow)
  ∧ convertStringToType Kind.int8 "127" = (GoValue.intV 127, none) := by
  decide

/-- When every conversion in the pair list succeeds, the binding loop
returns exactly the converted values, one per pair. -/
theorem bindLoop_all_ok (c : Command) (args : List String) :
    ∀ l : List (Kind × String),
      (∀ p ∈ l, (convertStringToType p.1 p.2).2 = none) →
      c.bindLoop args l =
        Except.ok (l.map (fun p => (convertStringToType p.1 p.2).1)) := by
  intro l
  induction l with
  | nil => intro _; rfl
  | cons p rest ih =>
    intro h
    obtain ⟨t, arg⟩ := p
    have h1 := h (t, arg) (List.mem_cons_self _ _)
    rw [Command.bindLoop]
    simp only [h1, ih (fun q hq => h q (List.mem_cons_of_mem _ hq)), Except.map,
      List.map_cons]

/-- Claim C5: for every command whose operation is a function and whose
arguments bind successfully (at least as many tokens as declared
parameters, every conversion error-free), execute calls the operation
with exactly the bound values, discards every value the operation
returns — its error included, since the result does not depend on what
run returns — and itself returns nil, so an error of the operation is
never propagated to dispatch. -/
theorem c5_execute_discards_operation_result :
    ∀ (c : Command) (f : GoFunc) (args : List String),
      c.Function = FunctionField.fn f →
      f.params.length ≤ args.length →
      (∀ p ∈ f.params.zip (args.take f.params.length),
         (convertStringToType p.1 p.2).2 = none) →
      (c.execute args).outcome = ExecOutcome.ret none
      ∧ (c.execute args).called =
          some ((f.params.zip (args.take f.params.length)).map
            (fun p => (convertStringToType p.1 p.2).1)) := by
  intro c f args hf hle hok
  simp only [Command.execute, hf]
  rw [if_neg (Nat.not_lt.mpr hle), bindLoop_all_ok c args _ hok]
  exact ⟨rfl, rfl⟩

/-- Witness for C5: a command whose function returns a non-nil error,
executed on a binding-clean argument: the function is called with the
bound value and execute still returns nil. -/
theorem c5_witness :
    (cmdBoom.execute ["1"]).outcome = ExecOutcome.ret none
  ∧ (cmdBoom.execute ["1"]).called = some [GoValue.intV 1] := by
  have h := c5_execute_discards_operation_result cmdBoom
    ⟨[Kind.int], fun _ => some (.custom "boom")⟩ ["1"] rfl (by decide) (by decide)
  exact ⟨h.1, by rw [h.2]; rfl⟩

/-- processLine never writes its receiver: the CLI it returns is the
one it was called on. -/
theorem processLine_snd (c : GomCLI) (line : String) : (c.processLine line).2 = c := by
  rw [GomCLI.processLine]
  repeat' first
    | rfl
    | split

/-- The processInput loop never writes the CLI either. -/
theorem processLinesFrom_snd :
    ∀ (ls : List String) (c : GomCLI), (c.processLinesFrom ls).2.2 = c := by
  intro ls
  induction ls with
  | nil => intro c; rfl
  | cons l ls ih =>
    intro c
    have hpl := processLine_snd c l
    simp only [GomCLI.processLinesFrom]
    rcases hl : c.processLine l with ⟨out, c1⟩
    rw [hl] at hpl
    simp only at hpl
    subst hpl
    cases out with
    | panicked m => rfl
    | ok oe =>
      cases oe with
      | some err => rfl
      | none => exact ih c1

/-- Characterization of the processInput loop: the trace of lines
handed to processLine is an in-order front segment of the input lines;
it is all of them exactly when the loop reports no error; and when the
loop reports an error there is a position k whose line produced that
error, every earlier line succeeded, and the trace stops right after
position k. -/
theorem processLinesFrom_spec (c : GomCLI) :
    ∀ ls : List String,
      ((c.processLinesFrom ls).2.1 = ls.take (c.processLinesFrom ls).2.1.length)
      ∧ ((c.processLinesFrom ls).1 = Outcome.ok none →
          (c.processLinesFrom ls).2.1 = ls)
      ∧ (∀ e, (c.processLinesFrom ls).1 = Outcome.ok (some e) →
          ∃ k, k < ls.length ∧ (c.processLinesFrom ls).2.1 = ls.take (k + 1)
            ∧ (c.processLine (ls.getD k "")).1 = Outcome.ok (some e)
            ∧ ∀ j, j < k → (c.processLine (ls.getD j "")).1 = Outcome.ok none) := by
  intro ls
  induction ls with
  | nil =>
    refine ⟨rfl, fun _ => rfl, ?_⟩
    intro e h
    exact absurd h (by simp [GomCLI.processLinesFrom])
  | cons l ls ih =>
    have hpl := processLine_snd c l
    simp only [GomCLI.processLinesFrom]
    rcases hl : c.processLine l with ⟨out, c1⟩
    rw [hl] at hpl
    simp only at hpl
    subst hpl
    have hl1 : (c1.processLine l).1 = out := by rw [hl]
    cases out with
    | panicked m =>
      refine ⟨by simp, ?_, ?_⟩
      · intro h; exact absurd h (by simp)
      · intro e h; exact absurd h (by simp)
    | ok oe =>
      cases oe with
      | some err =>
        refine ⟨by simp, ?_, ?_⟩
        · intro h; exact absurd h (by simp)
        · intro e h
          have he : err = e := by simpa using h
          refine ⟨0, by simp, by simp, ?_, by omega⟩
          rw [List.getD_cons_zero, hl1, he]
      | none =>
        obtain ⟨ih1, ih2, ih3⟩ := ih
        refine ⟨?_, ?_, ?_⟩
        · simp only [List.length_cons, List.take_succ_cons, List.cons.injEq]
          exact ⟨trivial, ih1⟩
        · intro h
          simp only [List.cons.injEq]
          exact ⟨trivial, ih2 h⟩
        · intro e h
          obtain ⟨k, hk, htr, hke, hbefore⟩ := ih3 e h
          refine ⟨k + 1, by simpa using hk, ?_, ?_, ?_⟩
          · simp only [List.take_succ_cons, List.cons.injEq]
            exact ⟨trivial, htr⟩
          · rw [List.getD_cons_succ]
            exact hke
          · intro j hj
            cases j with
            | zero => rw [List.getD_cons_zero]; exact hl1
            | succ j' =>
              rw [List.getD_cons_succ]
              exact hbefore j' (by omega)

/-- Claim C8: the invocations produced by the line splitter from one
raw input are handed to processLine strictly in left-to-right order
(the trace is a front segment of the split lines); when no invocation
errors, all of them run; and when one invocation returns an error,
every earlier one succeeded, that invocation is the last one processed,
and none of the later invocations from the same input is executed. -/
theorem c8_lines_in_order_stop_on_error :
    ∀ (c : GomCLI) (input : String) (lines : List String),
      splitInlineCommands input = Except.ok lines →
      ((c.processInput input).2.1 = lines.take (c.processInput input).2.1.length)
      ∧ ((c.processInput input).1 = Outcome.ok none →
          (c.processInput input).2.1 = lines)
      ∧ (∀ e, (c.processInput input).1 = Outcome.ok (some e) →
          ∃ k, k < lines.length ∧ (c.processInput input).2.1 = lines.take (k + 1)
            ∧ (c.processLine (lines.getD k "")).1 = Outcome.ok (some e)
            ∧ ∀ j, j < k → (c.processLine (lines.getD j "")).1 = Outcome.ok none) := by
  intro c input lines hsplit
  have hpi : c.processInput input = c.processLinesFrom lines := by
    rw [GomCLI.processInput, hsplit]
  rw [hpi]
  exact processLinesFrom_spec c lines

/-- Witness for C8: the input "a; b" splits into ["a", "b"]; with an
erroring not-found handler the first line already fails, so the trace
stops at position 0 and "b" is never processed. -/
theorem c8_witness :
    ∃ k, k < (["a", "b"] : List String).length
      ∧ (errCli.processInput "a; b").2.1 = (["a", "b"] : List String).take (k + 1)
      ∧ (errCli.processLine ((["a", "b"] : List String).getD k "")).1
          = Outcome.ok (some (GoErr.custom "a"))
      ∧ ∀ j, j < k →
          (errCli.processLine ((["a", "b"] : List String).getD j "")).1 = Outcome.ok none :=
  (c8_lines_in_order_stop_on_error errCli "a; b" ["a", "b"] (by decide)).2.2
    (GoErr.custom "a") (by decide)

/-- The completion loop hands the tail through unchanged in every
branch. -/
theorem completeLoop_tail (c : GomCLI) (line : String) (tokens : List String) (tail : String) :
    ∀ n, (completeLoop c line tokens tail n).2.2 = tail := by
  intro n
  induction n with
  | zero => rfl
  | succ k ih =>
    rw [completeLoop]
    split
    · split <;> rfl
    · exact ih

/-- Claim C9 counterexample: a cursor prefix that fails tokenization
(the unterminated quote in the two leading characters of the line) does
not always yield an empty candidate list: with a registered command
whose name has the malformed line as a literal prefix, the fallback
returns that name as a candidate. -/
theorem c9_counterexample :
    (quirkCli.complete "\"a" 2).2.1 = ["\"ab"]
  ∧ (quirkCli.complete "\"a" 2).2.1 ≠ ([] : List String) := by
  decide

/-- Claim C9 as amended: when tokenizing the up-to-cursor portion of
the line fails, the error is discarded rather than propagated — the
token list is treated as empty, so the loop falls directly back to
prefix-matching the full line against every registered command name
(an empty list unless some registered name has the malformed line as a
literal prefix) with the zero-valued head; and in every case, failure
or not, the portion of the line after the cursor is returned unchanged
as the tail. -/
theorem c9_tokenize_failure_fallback :
    (∀ (c : GomCLI) (line : String) (pos : Nat),
       shlexSplit false (strTake line pos) = none →
       c.complete line pos = ("", c.rawCommandCompleter line, strDrop line pos))
  ∧ (∀ (c : GomCLI) (line : String) (pos : Nat),
       (c.complete line pos).2.2 = strDrop line pos) := by
  constructor
  · intro c line pos h
    simp only [GomCLI.complete, h]
    rfl
  · intro c line pos
    simp only [GomCLI.complete]
    exact completeLoop_tail c line _ _ _

/-- Witness for C9 as amended: the registry whose command is named with
a leading quote character, the line consisting of a quote and a letter,
cursor at its end. -/
theorem c9_witness :
    quirkCli.complete "\"a" 2 = ("", quirkCli.rawCommandCompleter "\"a", strDrop "\"a" 2) :=
  c9_tokenize_failure_fallback.1 quirkCli "\"a" 2 (by decide)

/-- Claim C10: resolution and dispatch never mutate the registry — the
CLI value getCommand returns is its receiver, and the command map after
processLine and after a whole processInput call is the map before — and
argument binding never mutates the invocation: the args slice execute
was given is untouched when it returns. Handlers and command operations
are modeled as pure, per the shared-resource policy of the spec. -/
theorem c10_no_mutation :
    (∀ (c : GomCLI) (name : String), (c.getCommand name).2 = c)
  ∧ (∀ (c : GomCLI) (line : String), ((c.processLine line).2).commands = c.commands)
  ∧ (∀ (c : GomCLI) (input : String), ((c.processInput input).2.2).commands = c.commands)
  ∧ (∀ (cmd : Command) (args : List String), (cmd.execute args).argsOut = args) := by
  refine ⟨?_, ?_, ?_, ?_⟩
  · intro c name
    rw [GomCLI.getCommand]
    cases lookupName c.commands name <;> rfl
  · intro c line
    rw [processLine_snd]
  · intro c input
    rw [GomCLI.processInput]
    cases h : splitInlineCommands input with
    | error e => rfl
    | ok lines => rw [processLinesFrom_snd]
  · intro cmd args
    rw [Command.execute]
    cases cmd.Function with
    | nil => rfl
    | nonFunc => rfl
    | fn f =>
      simp only []
      split
      · cases cmd.handleErr GoErr.cmdMissingArgs args <;> rfl
      · cases cmd.bindLoop args (f.params.zip (args.take f.params.length)) <;> rfl

end Gomcli
